import Mathlib

/-!
# godotto `pkg/images`: script bindings for the image service

A shallow embedding of `src/pkg/images/images.go`.

* Script values (`otto.Value`) are an inductive type; a script number is a
  finite rational value (every double is one), NaN, or an infinity. Ids are Go
  `int`s: integers of the 64-bit range.
* `ottoutil.Throw` unwinds the current call with a script exception: the
  argument decoders return `Except String _`, and a bound method ends in an
  `Outcome` (`returned`, `thrown`, or `crashed` for a Go runtime panic such as
  a nil pointer dereference, which is not a script exception).
* The remote collaborator (`godo.ImagesService`) is a record of functions
  returning the Go result tuples; every bound method also reports the list of
  remote calls it made, in order.
* The unbounded `for` loop of `listCommon` takes a fuel argument: `none` means
  that the fuel ran out before the loop ended.
-/

namespace Godotto

/-! ## Script values -/

/-- Script number: a finite value, NaN, or an infinity. -/
inductive Number where
  | finite (x : ℚ)
  | nan
  | posInf
  | negInf

/-- The script number of an integer. -/
def Number.ofInt (n : Int) : Number := .finite n

/-- Least value of Go `int` (64 bits). -/
def minInt : Int := -9223372036854775808

/-- Greatest value of Go `int` (64 bits). -/
def maxInt : Int := 9223372036854775807

/-- The integers that a Go `int` can hold. -/
abbrev IsGoInt (z : Int) : Prop := minInt ≤ z ∧ z ≤ maxInt

/-- Conversion `int(i)` of the engine's `int64` result: the identity on the
64-bit range, to which any integer is reduced. -/
def toGoInt (z : Int) : Int := (z - minInt) % 18446744073709551616 + minInt

/-- Script value of the embedded interpreter (`otto.Value`). -/
inductive Value where
  | undefined
  | null
  | boolean (b : Bool)
  | number (x : Number)
  | string (s : String)
  | object (props : List (String × Value))
  | array (elems : List Value)

/-- Host values handed to `vm.ToValue` (the `interface{}` argument). -/
inductive HostVal where
  | int (n : Int)
  | str (s : String)
  | bool (b : Bool)
  | strs (xs : List String)
  | values (xs : List Value)

namespace Value

/-- Kind test `Value.IsNumber`. -/
def IsNumber : Value → Bool
  | number _ => true
  | _ => false

/-- Kind test `Value.IsString`. -/
def IsString : Value → Bool
  | string _ => true
  | _ => false

/-- Kind test `Value.IsObject`: plain objects and arrays are of object kind;
`undefined`, `null` and the primitives are not. -/
def IsObject : Value → Bool
  | object _ => true
  | array _ => true
  | _ => false

/-- Accessor `Value.Object()`: the object behind a value of object kind, nil
(`none`) otherwise. -/
def Object (v : Value) : Option Value :=
  if v.IsObject then some v else none

/-- Property read `Object.Get(name)`: the named property, `undefined` when the
object has none. Arrays carry no property named `id`, `slug` or `name`. -/
def Get : Value → String → Value
  | object props, name => (props.lookup name).getD undefined
  | _, _ => undefined

/-- Names of the properties of an object, in order. -/
def keys : Value → List String
  | object props => props.map Prod.fst
  | _ => []

end Value

/-- The value `q`: the zero `otto.Value`, which is `undefined`. -/
def q : Value := Value.undefined

/-- Interpreter handle (`*otto.Otto`): the engine's conversions, supplied by
the scripting library. -/
structure Otto where
  /-- Conversion `vm.ToValue` of a host value into a script value. -/
  ToValue : HostVal → Except String Value
  /-- Conversion `Value.ToInteger` of the engine. -/
  ToInteger : Value → Except String Int
  /-- Conversion `Value.ToString` of the engine. -/
  ToString : Value → Except String String

/-- Object under construction (`*otto.Object` of a plain object): its
properties, in insertion order. -/
abbrev Props := List (String × Value)

/-- Literal `vm.Object("({})")`: a fresh empty object. -/
def Otto.Object (_vm : Otto) : Props := []

/-- Method `Object.Set(name, v)`: replaces the property when present, appends
it otherwise; on a plain object it reports no error. -/
def Props.Set : Props → String → Value → Except String Props
  | [], name, v => .ok [(name, v)]
  | (k, w) :: rest, name, v =>
      if k = name then .ok ((k, v) :: rest)
      else (Props.Set rest name v).map (fun r => (k, w) :: r)

/-- Method `Object.Value()`: the script value of the object. -/
def Props.Value (d : Props) : Value := Value.object d

/-- A native call (`otto.FunctionCall`): the interpreter and the arguments. -/
structure FunctionCall where
  Otto : Otto
  ArgumentList : List Value

/-- Accessor `FunctionCall.Argument(i)`: the i-th argument, `undefined` when
absent. -/
def FunctionCall.Argument (all : FunctionCall) (i : Nat) : Value :=
  all.ArgumentList.getD i Value.undefined

/-! ## ottoutil helpers -/

namespace ottoutil

/-- Modelled from the spec: `ottoutil.Throw` raises a script exception
carrying the message and aborts the enclosing call; nothing after it runs. -/
def Throw {α : Type} (msg : String) : Except String α := .error msg

/-- Modelled from the spec: `ottoutil.GetObject` (package `internal/ottoutil`
is not among the sources) reads the named field of an object; a missing field
is not an error and reads as `undefined`. -/
def GetObject (_vm : Otto) (obj : Value) (name : String) : Except String Value :=
  .ok (obj.Get name)

/-- Modelled from the spec: `ottoutil.Int` takes a numeric argument directly
as the id: a number that is an integer of the Go `int` range is its own id.
Any other value (a number that is no such integer, a field that is not a
number) goes through the engine's integer conversion, narrowed to Go `int`; a
failure of that conversion is thrown. -/
def Int (vm : Otto) (v : Value) : Except String Int :=
  match v with
  | .number (.finite x) =>
    if x.den = 1 ∧ IsGoInt x.num then .ok x.num
    else (vm.ToInteger v).map toGoInt
  | w => (vm.ToInteger w).map toGoInt

/-- Modelled from the spec: `ottoutil.String` takes a string argument
directly; a missing (`undefined`) field yields the empty string rather than an
error; any other value goes through the engine's string conversion. -/
def String (vm : Otto) (v : Value) : Except String String :=
  match v with
  | .string s => .ok s
  | .undefined => .ok ""
  | w => vm.ToString w

end ottoutil

/-! ## The remote collaborator -/

/-- Record `godo.Image`. -/
structure Image where
  ID : Int
  Name : String
  /-- Field `Type` of the record (a reserved word here). -/
  Typ : String
  Distribution : String
  Slug : String
  Public : Bool
  Regions : List String
  MinDiskSize : Int
  Created : String

/-- Request `godo.ImageUpdateRequest`. -/
structure ImageUpdateRequest where
  Name : String
deriving DecidableEq

/-- Cursor `godo.ListOptions`. -/
structure ListOptions where
  Page : Nat
  PerPage : Nat
deriving DecidableEq

/-- Link metadata `godo.Links`, reduced to what `IsLastPage()` reports. -/
structure Links where
  IsLastPage : Bool

/-- Response `godo.Response`, reduced to its `Links` pointer. -/
structure Response where
  Links : Option Links

/-- The loop condition of `listCommon`:
`resp.Links != nil && !resp.Links.IsLastPage()`. -/
def Response.hasNext (resp : Response) : Bool :=
  match resp.Links with
  | none => false
  | some links => !links.IsLastPage

/-- Result tuple `([]godo.Image, *godo.Response, error)` of a page fetch. -/
abbrev ListResult := List Image × Option Response × Option String

/-- Type `listfunc`. -/
abbrev listfunc := ListOptions → ListResult

/-- Interface `godo.ImagesService`, each method returning its Go result tuple
(a nil pointer or nil error is `none`). -/
structure ImagesService where
  ListDistribution : listfunc
  ListApplication : listfunc
  ListUser : listfunc
  GetByID : Int → Option Image × Option String
  GetBySlug : String → Option Image × Option String
  Update : Int → ImageUpdateRequest → Option Image × Option String
  Delete : Int → Option String
  List : listfunc

/-- A remote call made by a bound method. -/
inductive Call where
  | listfn (opt : ListOptions)
  | GetByID (id : Int)
  | GetBySlug (slug : String)
  | Update (id : Int) (req : ImageUpdateRequest)
  | Delete (id : Int)
deriving DecidableEq

/-- How a bound method ends. -/
inductive Outcome where
  | returned (v : Value)
  | thrown (msg : String)
  | crashed

/-- Run of a bound method: the remote calls made, in order, and the end. -/
structure Run where
  calls : List Call
  outcome : Outcome

/-- Service `imageSvc`. -/
structure imageSvc where
  svc : ImagesService

/-! ## Argument decoders -/

/-- Method `imageSvc.argImageID`. -/
def imageSvc.argImageID (_svc : imageSvc) (all : FunctionCall) (i : Nat) :
    Except String Int :=
  let vm := all.Otto
  let arg := all.Argument i
  if arg.IsNumber then
    ottoutil.Int vm arg
  else if arg.IsObject then
    match ottoutil.GetObject vm arg "id" with
    | .error e => .error e
    | .ok f => ottoutil.Int vm f
  else
    ottoutil.Throw "argument must be a Image or a ImageID"

/-- Method `imageSvc.argImageSlug`. -/
def imageSvc.argImageSlug (_svc : imageSvc) (all : FunctionCall) (i : Nat) :
    Except String String :=
  let vm := all.Otto
  let arg := all.Argument i
  if arg.IsString then
    ottoutil.String vm arg
  else if arg.IsObject then
    match ottoutil.GetObject vm arg "slug" with
    | .error e => .error e
    | .ok f => ottoutil.String vm f
  else
    ottoutil.Throw "argument must be a Image or a ImageSlug"

/-- Method `imageSvc.argImageUpdate`. -/
def imageSvc.argImageUpdate (_svc : imageSvc) (all : FunctionCall) (i : Nat) :
    Except String ImageUpdateRequest :=
  let vm := all.Otto
  match (all.Argument i).Object with
  | none => ottoutil.Throw "argument must be a ImageRecord"
  | some arg =>
    match ottoutil.GetObject vm arg "name" with
    | .error e => .error e
    | .ok f =>
      match ottoutil.String vm f with
      | .error e => .error e
      | .ok name => .ok { Name := name }

/-! ## Projection -/

/-- Verb `%q` of `fmt` on a plain field name. -/
def quote (s : String) : String := "\"" ++ s ++ "\""

/-- The field table of `imageToVM`. -/
def imageFields (g : Image) : List (String × HostVal) :=
  [ ("id", .int g.ID),
    ("name", .str g.Name),
    ("type", .str g.Typ),
    ("distribution", .str g.Distribution),
    ("slug", .str g.Slug),
    ("public", .bool g.Public),
    ("regions", .strs g.Regions),
    ("min_disk_size", .int g.MinDiskSize),
    ("created_at", .str g.Created) ]

/-- The loop of `imageToVM` over the field table, on the object `d`. -/
def setFields (vm : Otto) : List (String × HostVal) → Props → Except String Props
  | [], d => .ok d
  | (name, fv) :: rest, d =>
    match vm.ToValue fv with
    | .error err => .error ("can\x27t prepare field " ++ quote name ++ ": " ++ err)
    | .ok v =>
      match d.Set name v with
      | .error err => .error ("can\x27t set field " ++ quote name ++ ": " ++ err)
      | .ok d1 => setFields vm rest d1

/-- Method `imageSvc.imageToVM`. -/
def imageSvc.imageToVM (_svc : imageSvc) (vm : Otto) (g : Image) : Except String Value :=
  match setFields vm (imageFields g) vm.Object with
  | .error err => .error err
  | .ok d => .ok d.Value

/-! ## Bound methods -/

/-- The tail of `get` and `update` after the remote call: throw the remote
error if any, else dereference `img` and project it. -/
def imageSvc.finish (svc : imageSvc) (vm : Otto) (calls : List Call)
    (img : Option Image) (err : Option String) : Run :=
  match err with
  | some e => ⟨calls, .thrown e⟩
  | none =>
    match img with
    | none => ⟨calls, .crashed⟩
    | some g =>
      match svc.imageToVM vm g with
      | .error e => ⟨calls, .thrown e⟩
      | .ok v => ⟨calls, .returned v⟩

/-- Method `imageSvc.get`. The switch has a number case and a string case and
no other: for any other argument `img` and `err` are still nil after it. -/
def imageSvc.get (svc : imageSvc) (all : FunctionCall) : Run :=
  let vm := all.Otto
  let arg := all.Argument 0
  if arg.IsNumber then
    match svc.argImageID all 0 with
    | .error e => ⟨[], .thrown e⟩
    | .ok id =>
      let r := svc.svc.GetByID id
      svc.finish vm [.GetByID id] r.1 r.2
  else if arg.IsString then
    match svc.argImageSlug all 0 with
    | .error e => ⟨[], .thrown e⟩
    | .ok slug =>
      let r := svc.svc.GetBySlug slug
      svc.finish vm [.GetBySlug slug] r.1 r.2
  else
    svc.finish vm [] none none

/-- Method `imageSvc.update`. -/
def imageSvc.update (svc : imageSvc) (all : FunctionCall) : Run :=
  let vm := all.Otto
  match svc.argImageID all 0 with
  | .error e => ⟨[], .thrown e⟩
  | .ok id =>
    match svc.argImageUpdate all 0 with
    | .error e => ⟨[], .thrown e⟩
    | .ok req =>
      let r := svc.svc.Update id req
      svc.finish vm [.Update id req] r.1 r.2

/-- Method `imageSvc.delete`. -/
def imageSvc.delete (svc : imageSvc) (all : FunctionCall) : Run :=
  match svc.argImageID all 0 with
  | .error e => ⟨[], .thrown e⟩
  | .ok id =>
    match svc.svc.Delete id with
    | some e => ⟨[.Delete id], .thrown e⟩
    | none => ⟨[.Delete id], .returned q⟩

/-- The inner loop of `listCommon`: project each record of the page and append
it to `images`. -/
def imageSvc.appendPage (svc : imageSvc) (vm : Otto) :
    List Image → List Value → Except String (List Value)
  | [], images => .ok images
  | d :: items, images =>
    match svc.imageToVM vm d with
    | .error e => .error e
    | .ok v => svc.appendPage vm items (images ++ [v])

/-- The end of `listCommon` after the loop: convert `images` with
`vm.ToValue`, throw on failure, return the collection otherwise. -/
def endOfList (vm : Otto) (images : List Value) : Outcome :=
  match vm.ToValue (.values images) with
  | .error e => .thrown e
  | .ok v => .returned v

/-- The outer loop of `listCommon`, from the cursor `opt` with `images`
accumulated and `calls` made so far. -/
def imageSvc.listLoop (svc : imageSvc) (vm : Otto) (listfn : listfunc) :
    Nat → ListOptions → List Value → List Call → Option Run
  | 0, _, _, _ => none
  | fuel + 1, opt, images, calls =>
    let r := listfn opt
    let calls1 := calls ++ [Call.listfn opt]
    match r.2.2 with
    | some e => some ⟨calls1, .thrown e⟩
    | none =>
      match svc.appendPage vm r.1 images with
      | .error e => some ⟨calls1, .thrown e⟩
      | .ok images1 =>
        match r.2.1 with
        | none => some ⟨calls1, .crashed⟩
        | some resp =>
          if resp.hasNext then
            svc.listLoop vm listfn fuel { opt with Page := opt.Page + 1 } images1 calls1
          else
            some ⟨calls1, endOfList vm images1⟩

/-- Method `imageSvc.listCommon`, with `fuel` bounding the number of pages. -/
def imageSvc.listCommon (svc : imageSvc) (all : FunctionCall) (listfn : listfunc)
    (fuel : Nat) : Option Run :=
  let vm := all.Otto
  svc.listLoop vm listfn fuel { Page := 1, PerPage := 200 } [] []

/-- Method `imageSvc.list`. -/
def imageSvc.list (svc : imageSvc) (all : FunctionCall) (fuel : Nat) : Option Run :=
  svc.listCommon all svc.svc.List fuel

/-- Method `imageSvc.listDistribution`. -/
def imageSvc.listDistribution (svc : imageSvc) (all : FunctionCall) (fuel : Nat) :
    Option Run :=
  svc.listCommon all svc.svc.ListDistribution fuel

/-- Method `imageSvc.listApplication`. -/
def imageSvc.listApplication (svc : imageSvc) (all : FunctionCall) (fuel : Nat) :
    Option Run :=
  svc.listCommon all svc.svc.ListApplication fuel

/-- Method `imageSvc.listUser`. -/
def imageSvc.listUser (svc : imageSvc) (all : FunctionCall) (fuel : Nat) : Option Run :=
  svc.listCommon all svc.svc.ListUser fuel

/-- The four listing operations bound by `Apply`. -/
inductive ListOp where
  | list
  | list_distribution
  | list_application
  | list_user

/-- The remote listing function behind a listing operation. -/
def ListOp.remote (client : ImagesService) : ListOp → listfunc
  | .list => client.List
  | .list_distribution => client.ListDistribution
  | .list_application => client.ListApplication
  | .list_user => client.ListUser

/-- The method that `Apply` binds to a listing operation. -/
def ListOp.method (svc : imageSvc) : ListOp → FunctionCall → Nat → Option Run
  | .list => svc.list
  | .list_distribution => svc.listDistribution
  | .list_application => svc.listApplication
  | .list_user => svc.listUser

/-! ## A concrete interpreter and remote, for evaluating the methods -/

/-- An interpreter whose conversions of the host types used here never fail:
integers become numbers, strings strings, booleans booleans, slices arrays.
Its integer conversion of a number truncates towards zero and saturates at the
ends of the 64-bit range; NaN converts to 0. -/
def sampleVM : Otto where
  ToValue
    | .int n => .ok (.number (.ofInt n))
    | .str s => .ok (.string s)
    | .bool b => .ok (.boolean b)
    | .strs xs => .ok (.array (xs.map Value.string))
    | .values xs => .ok (.array xs)
  ToInteger
    | .number (.finite x) => .ok (max minInt (min maxInt (Int.tdiv x.num x.den)))
    | .number .nan => .ok 0
    | .number .posInf => .ok maxInt
    | .number .negInf => .ok minInt
    | _ => .ok 0
  ToString
    | .string s => .ok s
    | _ => .ok ""

/-- The number 1.5. -/
def oneAndHalf : Number := .finite ⟨3, 2, by decide, by decide⟩

/-- A sample record with the given id and name. -/
def sampleImage (id : Int) (name : String) : Image where
  ID := id
  Name := name
  Typ := "snapshot"
  Distribution := "Ubuntu"
  Slug := "ubuntu-14-04-x64"
  Public := true
  Regions := ["nyc1", "sfo1"]
  MinDiskSize := 20
  Created := "2014-10-17T20:24:33Z"

/-- The projection of any record by the sample interpreter. -/
def sampleProj (g : Image) : Value :=
  .object
    [("id", .number (.ofInt g.ID)), ("name", .string g.Name), ("type", .string g.Typ),
     ("distribution", .string g.Distribution), ("slug", .string g.Slug),
     ("public", .boolean g.Public), ("regions", .array (g.Regions.map Value.string)),
     ("min_disk_size", .number (.ofInt g.MinDiskSize)), ("created_at", .string g.Created)]

/-- A remote with three listing pages (of sizes 2, 1, 0 on `List`), whose
second page fails on `ListUser`; lookups and updates answer with a record
carrying the requested id, slug or name; `Delete` succeeds except on id 7. -/
def sampleClient : ImagesService where
  List opt :=
    if opt.Page = 1 then
      ([sampleImage 1 "a", sampleImage 2 "b"], some ⟨some ⟨false⟩⟩, none)
    else if opt.Page = 2 then
      ([sampleImage 3 "c"], some ⟨some ⟨false⟩⟩, none)
    else
      ([], some ⟨some ⟨true⟩⟩, none)
  ListDistribution _ := ([sampleImage 1 "a"], some ⟨none⟩, none)
  ListApplication _ := ([], some ⟨some ⟨true⟩⟩, none)
  ListUser opt :=
    if opt.Page = 1 then ([sampleImage 1 "a"], some ⟨some ⟨false⟩⟩, none)
    else ([], none, some "server error")
  GetByID id := (some (sampleImage id "by-id"), none)
  GetBySlug slug := (some { sampleImage 5 "by-slug" with Slug := slug }, none)
  Update id req := (some (sampleImage id req.Name), none)
  Delete id := if id = 7 then some "not found" else none

/-- The service bound to the sample remote. -/
def sampleSvc : imageSvc := { svc := sampleClient }

end Godotto

/-! ## Theorems -/

namespace Godotto

/-- An integer of the Go `int` range is its own id, whatever the engine. -/
theorem Int_ofInt (vm : Otto) (n : Int) (hn : IsGoInt n) :
    ottoutil.Int vm (.number (.ofInt n)) = .ok n := by
  simp [ottoutil.Int, Number.ofInt, hn.1, hn.2]

/-- A numeric argument decodes to its coerced id. -/
theorem argImageID_number (svc : imageSvc) (vm : Otto) (x : Number) (rest : List Value) :
    svc.argImageID ⟨vm, .number x :: rest⟩ 0 = ottoutil.Int vm (.number x) := rfl

/-- An argument that is neither a number nor an object is rejected by the
identifier decoder. -/
theorem argImageID_other (svc : imageSvc) (all : FunctionCall)
    (hn : (all.Argument 0).IsNumber = false) (ho : (all.Argument 0).IsObject = false) :
    svc.argImageID all 0 = .error "argument must be a Image or a ImageID" := by
  simp [imageSvc.argImageID, hn, ho, ottoutil.Throw]

/-- The tail of `get` and `update` makes no remote call of its own. -/
theorem finish_calls (svc : imageSvc) (vm : Otto) (calls : List Call)
    (img : Option Image) (err : Option String) :
    (svc.finish vm calls img err).calls = calls := by
  unfold imageSvc.finish
  cases err with
  | some e => rfl
  | none =>
    cases img with
    | none => rfl
    | some g =>
      simp only []
      cases svc.imageToVM vm g <;> rfl

/-- The object built by `imageToVM` from the nine converted fields. -/
theorem imageToVM_eq (svc : imageSvc) (vm : Otto) (g : Image)
    {v1 v2 v3 v4 v5 v6 v7 v8 v9 : Value}
    (h1 : vm.ToValue (.int g.ID) = .ok v1) (h2 : vm.ToValue (.str g.Name) = .ok v2)
    (h3 : vm.ToValue (.str g.Typ) = .ok v3)
    (h4 : vm.ToValue (.str g.Distribution) = .ok v4)
    (h5 : vm.ToValue (.str g.Slug) = .ok v5) (h6 : vm.ToValue (.bool g.Public) = .ok v6)
    (h7 : vm.ToValue (.strs g.Regions) = .ok v7)
    (h8 : vm.ToValue (.int g.MinDiskSize) = .ok v8)
    (h9 : vm.ToValue (.str g.Created) = .ok v9) :
    svc.imageToVM vm g = .ok (.object
      [("id", v1), ("name", v2), ("type", v3), ("distribution", v4), ("slug", v5),
       ("public", v6), ("regions", v7), ("min_disk_size", v8), ("created_at", v9)]) := by
  simp [imageSvc.imageToVM, imageFields, setFields, Otto.Object, Props.Set, Props.Value,
    h1, h2, h3, h4, h5, h6, h7, h8, h9, Except.map]

/-- A successful run of the field loop converted every field of the table. -/
theorem setFields_ok_converts (vm : Otto) :
    ∀ (fs : List (String × HostVal)) (d d1 : Props), setFields vm fs d = .ok d1 →
      ∀ f ∈ fs, ∃ w, vm.ToValue f.2 = .ok w := by
  intro fs
  induction fs with
  | nil => intro d d1 _ f hf; cases hf
  | cons hd tl ih =>
    intro d d1 h f hf
    obtain ⟨name, fv⟩ := hd
    unfold setFields at h
    cases hv : vm.ToValue fv with
    | error e => simp [hv] at h
    | ok v =>
      simp only [hv] at h
      cases hs : d.Set name v with
      | error e => simp [hs] at h
      | ok d2 =>
        simp only [hs] at h
        rcases List.mem_cons.mp hf with rfl | hmem
        · exact ⟨v, hv⟩
        · exact ih d2 d1 h f hmem

/-- The `name` property of a projection is the converted `Name` of the record. -/
theorem imageToVM_name (svc : imageSvc) (vm : Otto) (g : Image) (v : Value)
    (h : svc.imageToVM vm g = .ok v) : vm.ToValue (.str g.Name) = .ok (v.Get "name") := by
  have hconv : ∀ f ∈ imageFields g, ∃ w, vm.ToValue f.2 = .ok w := by
    unfold imageSvc.imageToVM at h
    cases hs : setFields vm (imageFields g) vm.Object with
    | error e => simp [hs] at h
    | ok d => exact setFields_ok_converts vm _ _ d hs
  obtain ⟨v1, h1⟩ := hconv ("id", .int g.ID) (by simp [imageFields])
  obtain ⟨v2, h2⟩ := hconv ("name", .str g.Name) (by simp [imageFields])
  obtain ⟨v3, h3⟩ := hconv ("type", .str g.Typ) (by simp [imageFields])
  obtain ⟨v4, h4⟩ := hconv ("distribution", .str g.Distribution) (by simp [imageFields])
  obtain ⟨v5, h5⟩ := hconv ("slug", .str g.Slug) (by simp [imageFields])
  obtain ⟨v6, h6⟩ := hconv ("public", .bool g.Public) (by simp [imageFields])
  obtain ⟨v7, h7⟩ := hconv ("regions", .strs g.Regions) (by simp [imageFields])
  obtain ⟨v8, h8⟩ := hconv ("min_disk_size", .int g.MinDiskSize) (by simp [imageFields])
  obtain ⟨v9, h9⟩ := hconv ("created_at", .str g.Created) (by simp [imageFields])
  simp only [] at h1 h2 h3 h4 h5 h6 h7 h8 h9
  have h0 := imageToVM_eq svc vm g h1 h2 h3 h4 h5 h6 h7 h8 h9
  rw [h] at h0
  injection h0 with h0
  subst h0
  simpa [Value.Get, List.lookup] using h2

/-- C8: when each of the nine fields of a record `g` converts, `imageToVM`
succeeds with an object whose properties are exactly id, name, type,
distribution, slug, public, regions, min_disk_size, created_at, in that order,
each holding the converted value of the corresponding field of `g`; the result
does not depend on the service handle (the calling operation), so equal
records give equal objects. -/
theorem imageToVM_fixed_fields (svc : imageSvc) (vm : Otto) (g : Image)
    (hconv : ∀ f ∈ imageFields g, ∃ v, vm.ToValue f.2 = .ok v) :
    ∃ o, svc.imageToVM vm g = .ok o ∧
      o.keys = ["id", "name", "type", "distribution", "slug", "public", "regions",
        "min_disk_size", "created_at"] ∧
      vm.ToValue (.int g.ID) = .ok (o.Get "id") ∧
      vm.ToValue (.str g.Name) = .ok (o.Get "name") ∧
      vm.ToValue (.str g.Typ) = .ok (o.Get "type") ∧
      vm.ToValue (.str g.Distribution) = .ok (o.Get "distribution") ∧
      vm.ToValue (.str g.Slug) = .ok (o.Get "slug") ∧
      vm.ToValue (.bool g.Public) = .ok (o.Get "public") ∧
      vm.ToValue (.strs g.Regions) = .ok (o.Get "regions") ∧
      vm.ToValue (.int g.MinDiskSize) = .ok (o.Get "min_disk_size") ∧
      vm.ToValue (.str g.Created) = .ok (o.Get "created_at") ∧
      ∀ (svc2 : imageSvc) (g2 : Image), g2 = g → svc2.imageToVM vm g2 = .ok o := by
  obtain ⟨v1, h1⟩ := hconv ("id", .int g.ID) (by simp [imageFields])
  obtain ⟨v2, h2⟩ := hconv ("name", .str g.Name) (by simp [imageFields])
  obtain ⟨v3, h3⟩ := hconv ("type", .str g.Typ) (by simp [imageFields])
  obtain ⟨v4, h4⟩ := hconv ("distribution", .str g.Distribution) (by simp [imageFields])
  obtain ⟨v5, h5⟩ := hconv ("slug", .str g.Slug) (by simp [imageFields])
  obtain ⟨v6, h6⟩ := hconv ("public", .bool g.Public) (by simp [imageFields])
  obtain ⟨v7, h7⟩ := hconv ("regions", .strs g.Regions) (by simp [imageFields])
  obtain ⟨v8, h8⟩ := hconv ("min_disk_size", .int g.MinDiskSize) (by simp [imageFields])
  obtain ⟨v9, h9⟩ := hconv ("created_at", .str g.Created) (by simp [imageFields])
  simp only [] at h1 h2 h3 h4 h5 h6 h7 h8 h9
  have key : ∀ s : imageSvc, s.imageToVM vm g = .ok (.object
      [("id", v1), ("name", v2), ("type", v3), ("distribution", v4), ("slug", v5),
       ("public", v6), ("regions", v7), ("min_disk_size", v8), ("created_at", v9)]) :=
    fun s => imageToVM_eq s vm g h1 h2 h3 h4 h5 h6 h7 h8 h9
  refine ⟨_, key svc, ?_, ?_, ?_, ?_, ?_, ?_, ?_, ?_, ?_, ?_, ?_⟩
  · simp [Value.keys]
  · simpa [Value.Get, List.lookup] using h1
  · simpa [Value.Get, List.lookup] using h2
  · simpa [Value.Get, List.lookup] using h3
  · simpa [Value.Get, List.lookup] using h4
  · simpa [Value.Get, List.lookup] using h5
  · simpa [Value.Get, List.lookup] using h6
  · simpa [Value.Get, List.lookup] using h7
  · simpa [Value.Get, List.lookup] using h8
  · simpa [Value.Get, List.lookup] using h9
  · intro svc2 g2 hg
    subst hg
    exact key svc2

/-- Witness of C8 on the sample record with id 42. -/
theorem imageToVM_fixed_fields_witness :
    (∀ f ∈ imageFields (sampleImage 42 "img"), ∃ v, sampleVM.ToValue f.2 = .ok v) ∧
    ∃ o, sampleSvc.imageToVM sampleVM (sampleImage 42 "img") = .ok o ∧
      o.keys = ["id", "name", "type", "distribution", "slug", "public", "regions",
        "min_disk_size", "created_at"] ∧
      sampleVM.ToValue (.int (sampleImage 42 "img").ID) = .ok (o.Get "id") ∧
      sampleVM.ToValue (.str (sampleImage 42 "img").Name) = .ok (o.Get "name") ∧
      sampleVM.ToValue (.str (sampleImage 42 "img").Typ) = .ok (o.Get "type") ∧
      sampleVM.ToValue (.str (sampleImage 42 "img").Distribution) =
        .ok (o.Get "distribution") ∧
      sampleVM.ToValue (.str (sampleImage 42 "img").Slug) = .ok (o.Get "slug") ∧
      sampleVM.ToValue (.bool (sampleImage 42 "img").Public) = .ok (o.Get "public") ∧
      sampleVM.ToValue (.strs (sampleImage 42 "img").Regions) = .ok (o.Get "regions") ∧
      sampleVM.ToValue (.int (sampleImage 42 "img").MinDiskSize) =
        .ok (o.Get "min_disk_size") ∧
      sampleVM.ToValue (.str (sampleImage 42 "img").Created) = .ok (o.Get "created_at") ∧
      ∀ (svc2 : imageSvc) (g2 : Image), g2 = sampleImage 42 "img" →
        svc2.imageToVM sampleVM g2 = .ok o :=
  ⟨by simp [imageFields, sampleVM],
   imageToVM_fixed_fields sampleSvc sampleVM (sampleImage 42 "img")
     (by simp [imageFields, sampleVM])⟩

/-- The run of `get` on a numeric argument that coerces to `id`. -/
theorem get_number (svc : imageSvc) (vm : Otto) (x : Number) (rest : List Value) (id : Int)
    (hid : ottoutil.Int vm (.number x) = .ok id) :
    svc.get ⟨vm, .number x :: rest⟩ =
      svc.finish vm [Call.GetByID id] (svc.svc.GetByID id).1 (svc.svc.GetByID id).2 := by
  have h := argImageID_number svc vm x rest
  rw [hid] at h
  simp [imageSvc.get, FunctionCall.Argument, Value.IsNumber, h]

/-- The run of `get` on a string argument. -/
theorem get_string (svc : imageSvc) (vm : Otto) (s : String) (rest : List Value) :
    svc.get ⟨vm, .string s :: rest⟩ =
      svc.finish vm [Call.GetBySlug s] (svc.svc.GetBySlug s).1 (svc.svc.GetBySlug s).2 := by
  simp [imageSvc.get, imageSvc.argImageSlug, FunctionCall.Argument, Value.IsNumber,
    Value.IsString, ottoutil.String]

/-- The end of `get` and `update` as a function of the remote reply. -/
theorem finish_outcome (svc : imageSvc) (vm : Otto) (calls : List Call)
    (r : Option Image × Option String) :
    (svc.finish vm calls r.1 r.2).outcome =
      (match r with
       | (_, some e) => Outcome.thrown e
       | (none, none) => Outcome.crashed
       | (some g, none) =>
         match svc.imageToVM vm g with
         | .ok v => Outcome.returned v
         | .error e => Outcome.thrown e) := by
  obtain ⟨img, err⟩ := r
  cases err with
  | some e => cases img <;> rfl
  | none =>
    cases img with
    | none => rfl
    | some g =>
      simp only [imageSvc.finish]
      cases svc.imageToVM vm g <;> rfl

/-- C2: for every numeric argument `x`, with `id` the id coerced from `x`,
`get` makes exactly one remote call, `GetByID id`, and ends as the reply of
the remote `GetByID id` decides (its error thrown, else its record
projected); an integer of the Go `int` range is coerced to itself. For every
string argument `s`, `get` makes exactly one remote call, `GetBySlug s`, and
ends as the reply of the remote `GetBySlug s` decides. Whatever the
arguments, `get` makes at most one remote call, so never both lookups. -/
theorem get_dispatches_once (svc : imageSvc) (vm : Otto) (rest : List Value) :
    (∀ (x : Number) (id : Int), ottoutil.Int vm (.number x) = .ok id →
      (svc.get ⟨vm, .number x :: rest⟩).calls = [Call.GetByID id] ∧
      (svc.get ⟨vm, .number x :: rest⟩).outcome =
        (match svc.svc.GetByID id with
         | (_, some e) => Outcome.thrown e
         | (none, none) => Outcome.crashed
         | (some g, none) =>
           match svc.imageToVM vm g with
           | .ok v => Outcome.returned v
           | .error e => Outcome.thrown e)) ∧
    (∀ n : Int, IsGoInt n → ottoutil.Int vm (.number (.ofInt n)) = .ok n) ∧
    (∀ s : String,
      (svc.get ⟨vm, .string s :: rest⟩).calls = [Call.GetBySlug s] ∧
      (svc.get ⟨vm, .string s :: rest⟩).outcome =
        (match svc.svc.GetBySlug s with
         | (_, some e) => Outcome.thrown e
         | (none, none) => Outcome.crashed
         | (some g, none) =>
           match svc.imageToVM vm g with
           | .ok v => Outcome.returned v
           | .error e => Outcome.thrown e)) ∧
    (∀ all : FunctionCall, (svc.get all).calls.length ≤ 1) := by
  refine ⟨?_, ?_, ?_, ?_⟩
  · intro x id hid
    rw [get_number svc vm x rest id hid]
    exact ⟨finish_calls _ _ _ _ _, finish_outcome svc vm _ (svc.svc.GetByID id)⟩
  · intro n hn
    exact Int_ofInt vm n hn
  · intro s
    rw [get_string svc vm s rest]
    exact ⟨finish_calls _ _ _ _ _, finish_outcome svc vm _ (svc.svc.GetBySlug s)⟩
  · intro all
    unfold imageSvc.get
    simp only []
    split
    · split
      · simp
      · simp [finish_calls]
    · split
      · split
        · simp
        · simp [finish_calls]
      · simp [finish_calls]

/-- Witness of C2 on the sample interpreter and remote: `get(42)` calls
`GetByID 42` and returns the projection of the record found; `get(1e19)`
calls `GetByID 9223372036854775807`; `get(NaN)` calls `GetByID 0`; `get(1.5)`
calls `GetByID 1`; and `get("ubuntu")` calls `GetBySlug "ubuntu"`. -/
theorem get_dispatches_once_witness :
    (ottoutil.Int sampleVM (.number (.ofInt 42)) = .ok 42 ∧
     (sampleSvc.get ⟨sampleVM, [.number (.ofInt 42)]⟩).calls = [Call.GetByID 42] ∧
     (sampleSvc.get ⟨sampleVM, [.number (.ofInt 42)]⟩).outcome =
       .returned (sampleProj (sampleImage 42 "by-id"))) ∧
    (ottoutil.Int sampleVM (.number (.ofInt 10000000000000000000)) =
       .ok 9223372036854775807 ∧
     (sampleSvc.get ⟨sampleVM, [.number (.ofInt 10000000000000000000)]⟩).calls =
       [Call.GetByID 9223372036854775807]) ∧
    (ottoutil.Int sampleVM (.number .nan) = .ok 0 ∧
     (sampleSvc.get ⟨sampleVM, [.number .nan]⟩).calls = [Call.GetByID 0]) ∧
    (ottoutil.Int sampleVM (.number oneAndHalf) = .ok 1 ∧
     (sampleSvc.get ⟨sampleVM, [.number oneAndHalf]⟩).calls = [Call.GetByID 1]) ∧
    ((sampleSvc.get ⟨sampleVM, [.string "ubuntu"]⟩).calls = [Call.GetBySlug "ubuntu"] ∧
     (sampleSvc.get ⟨sampleVM, [.string "ubuntu"]⟩).outcome =
       .returned (sampleProj { sampleImage 5 "by-slug" with Slug := "ubuntu" })) :=
  ⟨⟨rfl, (get_dispatches_once sampleSvc sampleVM []).1 (.ofInt 42) 42 rfl⟩,
   ⟨rfl, ((get_dispatches_once sampleSvc sampleVM []).1
      (.ofInt 10000000000000000000) 9223372036854775807 rfl).1⟩,
   ⟨rfl, ((get_dispatches_once sampleSvc sampleVM []).1 .nan 0 rfl).1⟩,
   ⟨rfl, ((get_dispatches_once sampleSvc sampleVM []).1 oneAndHalf 1 rfl).1⟩,
   (get_dispatches_once sampleSvc sampleVM []).2.2.1 "ubuntu"⟩

/-- C3, evaluated on the code: `get` called with the empty object `{}` (no
`id`, no `slug`) makes no remote call and ends in the nil dereference of
`img`, not in a thrown argument-shape exception. -/
theorem get_empty_object_crashes (svc : imageSvc) (vm : Otto) :
    (svc.get ⟨vm, [.object []]⟩).calls = [] ∧
    (svc.get ⟨vm, [.object []]⟩).outcome = .crashed ∧
    ∀ msg, (svc.get ⟨vm, [.object []]⟩).outcome ≠ .thrown msg := by
  refine ⟨rfl, rfl, ?_⟩
  intro msg h
  have h2 : Outcome.crashed = Outcome.thrown msg := h
  cases h2

/-- C4, evaluated on the code: `get` called with the record object
`{id: 42, slug: "ubuntu-14-04-x64"}` makes no remote lookup and returns no
projection: it ends in the nil dereference of `img`. -/
theorem get_record_object_crashes (svc : imageSvc) (vm : Otto) :
    (svc.get ⟨vm, [.object [("id", .number (.ofInt 42)),
        ("slug", .string "ubuntu-14-04-x64")]]⟩).calls = [] ∧
    (svc.get ⟨vm, [.object [("id", .number (.ofInt 42)),
        ("slug", .string "ubuntu-14-04-x64")]]⟩).outcome = .crashed :=
  ⟨rfl, rfl⟩

/-- C7: for every id `n` (a Go `int`), `delete(n)` makes exactly one remote
call, `Delete n`; when the remote reports success it returns the undefined
value and throws nothing; when the remote reports an error it throws a script
exception whose message is the remote error text, and returns no value. -/
theorem delete_one_call (svc : imageSvc) (vm : Otto) (n : Int) (hn : IsGoInt n)
    (rest : List Value) :
    (svc.delete ⟨vm, .number (.ofInt n) :: rest⟩).calls = [Call.Delete n] ∧
    (svc.delete ⟨vm, .number (.ofInt n) :: rest⟩).outcome =
      (match svc.svc.Delete n with
       | none => Outcome.returned Value.undefined
       | some e => Outcome.thrown e) := by
  simp only [imageSvc.delete, argImageID_number, Int_ofInt vm n hn]
  cases svc.svc.Delete n <;> exact ⟨rfl, rfl⟩

/-- Witness of C7: on the sample remote `delete(42)` succeeds with the
undefined value, and `delete(7)`, which the remote answers with "not found",
throws "not found". -/
theorem delete_one_call_witness :
    (IsGoInt 42 ∧ IsGoInt 7) ∧
    ((sampleSvc.delete ⟨sampleVM, [.number (.ofInt 42)]⟩).calls = [Call.Delete 42] ∧
     (sampleSvc.delete ⟨sampleVM, [.number (.ofInt 42)]⟩).outcome =
       .returned .undefined) ∧
    ((sampleSvc.delete ⟨sampleVM, [.number (.ofInt 7)]⟩).calls = [Call.Delete 7] ∧
     (sampleSvc.delete ⟨sampleVM, [.number (.ofInt 7)]⟩).outcome = .thrown "not found") :=
  ⟨⟨by decide, by decide⟩,
   delete_one_call sampleSvc sampleVM 42 (by decide) [],
   delete_one_call sampleSvc sampleVM 7 (by decide) []⟩

/-- C9: when argument 0 is neither a number nor an object (a string, a
boolean, undefined or absent, null), `delete` and `update` throw the
identifier-coercion exception and make no remote call. -/
theorem delete_update_reject_bad_shape (svc : imageSvc) (all : FunctionCall)
    (hn : (all.Argument 0).IsNumber = false) (ho : (all.Argument 0).IsObject = false) :
    svc.delete all = ⟨[], .thrown "argument must be a Image or a ImageID"⟩ ∧
    svc.update all = ⟨[], .thrown "argument must be a Image or a ImageID"⟩ := by
  simp [imageSvc.delete, imageSvc.update, argImageID_other svc all hn ho]

/-- Witness of C9 on a call without arguments. -/
theorem delete_update_reject_bad_shape_witness :
    ((⟨sampleVM, []⟩ : FunctionCall).Argument 0).IsNumber = false ∧
    ((⟨sampleVM, []⟩ : FunctionCall).Argument 0).IsObject = false ∧
    sampleSvc.delete ⟨sampleVM, []⟩ =
      ⟨[], .thrown "argument must be a Image or a ImageID"⟩ ∧
    sampleSvc.update ⟨sampleVM, []⟩ =
      ⟨[], .thrown "argument must be a Image or a ImageID"⟩ :=
  ⟨rfl, rfl, delete_update_reject_bad_shape sampleSvc ⟨sampleVM, []⟩ rfl rfl⟩

/-- C6: for every id `i` (a Go `int`) and name `s`, `update` called with the object
`{id: i, name: s}` makes exactly one remote call, `Update` with id `i` and a
request whose `Name` is `s`, whatever the remote answers; when the remote
answers with a record `r` that projects to `v`, `update` returns `v`, and when
`r` is named `s` the `name` property of `v` holds the converted `s`. -/
theorem update_one_call (svc : imageSvc) (vm : Otto) (i : Int) (hi : IsGoInt i)
    (s : String) (rest : List Value) :
    (svc.update ⟨vm, .object [("id", .number (.ofInt i)), ("name", .string s)] :: rest⟩).calls =
      [Call.Update i { Name := s }] ∧
    ∀ (r : Image) (v : Value), svc.svc.Update i { Name := s } = (some r, none) →
      svc.imageToVM vm r = .ok v →
      (svc.update ⟨vm, .object [("id", .number (.ofInt i)), ("name", .string s)] :: rest⟩).outcome =
        .returned v ∧
      (r.Name = s → vm.ToValue (.str s) = .ok (v.Get "name")) := by
  have hcall : svc.update ⟨vm, .object [("id", .number (.ofInt i)), ("name", .string s)] :: rest⟩ =
      svc.finish vm [Call.Update i { Name := s }] (svc.svc.Update i { Name := s }).1
        (svc.svc.Update i { Name := s }).2 := by
    simp [imageSvc.update, imageSvc.argImageID, imageSvc.argImageUpdate,
      FunctionCall.Argument, Value.IsNumber, Value.IsObject, Value.Object, ottoutil.GetObject,
      Int_ofInt vm i hi, ottoutil.String, Value.Get, List.lookup]
  refine ⟨?_, ?_⟩
  · rw [hcall, finish_calls]
  · intro r v hr hv
    refine ⟨?_, ?_⟩
    · rw [hcall, hr]
      simp [imageSvc.finish, hv]
    · intro hname
      have := imageToVM_name svc vm r v hv
      rwa [hname] at this

/-- Witness of C6: `update({id: 42, name: "new-name"})` on the sample remote
makes the one call `Update 42 {Name: "new-name"}` and returns the projection
of the updated record, whose `name` property is `"new-name"`. -/
theorem update_one_call_witness :
    IsGoInt 42 ∧
    sampleSvc.svc.Update 42 { Name := "new-name" } = (some (sampleImage 42 "new-name"), none) ∧
    sampleSvc.imageToVM sampleVM (sampleImage 42 "new-name") =
      .ok (sampleProj (sampleImage 42 "new-name")) ∧
    (sampleImage 42 "new-name").Name = "new-name" ∧
    (sampleSvc.update ⟨sampleVM,
      [.object [("id", .number (.ofInt 42)), ("name", .string "new-name")]]⟩).calls =
      [Call.Update 42 { Name := "new-name" }] ∧
    (sampleSvc.update ⟨sampleVM,
      [.object [("id", .number (.ofInt 42)), ("name", .string "new-name")]]⟩).outcome =
      .returned (sampleProj (sampleImage 42 "new-name")) ∧
    (sampleProj (sampleImage 42 "new-name")).Get "name" = .string "new-name" ∧
    sampleVM.ToValue (.str "new-name") =
      .ok ((sampleProj (sampleImage 42 "new-name")).Get "name") :=
  ⟨by decide, rfl, rfl, rfl,
   (update_one_call sampleSvc sampleVM 42 (by decide) "new-name" []).1,
   ((update_one_call sampleSvc sampleVM 42 (by decide) "new-name" []).2
     (sampleImage 42 "new-name") (sampleProj (sampleImage 42 "new-name")) rfl rfl).1,
   rfl,
   ((update_one_call sampleSvc sampleVM 42 (by decide) "new-name" []).2
     (sampleImage 42 "new-name") (sampleProj (sampleImage 42 "new-name")) rfl rfl).2 rfl⟩

/-! ### The paging loop -/

/-- The inner loop appends the projections of the page, in order. -/
theorem appendPage_ok (svc : imageSvc) (vm : Otto) (proj : Image → Value) :
    ∀ (items : List Image) (images : List Value),
      (∀ d ∈ items, svc.imageToVM vm d = .ok (proj d)) →
      svc.appendPage vm items images = .ok (images ++ items.map proj) := by
  intro items
  induction items with
  | nil => intro images _; simp [imageSvc.appendPage]
  | cons d ds ih =>
    intro images h
    have hd : svc.imageToVM vm d = .ok (proj d) := h d (List.mem_cons_self _ _)
    have ht : ∀ x ∈ ds, svc.imageToVM vm x = .ok (proj x) :=
      fun x hx => h x (List.mem_cons_of_mem _ hx)
    simp [imageSvc.appendPage, hd, ih _ ht]

/-- One turn of the outer loop on a page that is fetched, projected, and
followed by another page. -/
theorem listLoop_step (svc : imageSvc) (vm : Otto) (listfn : listfunc) (proj : Image → Value)
    (fuel : Nat) (opt : ListOptions) (images : List Value) (calls : List Call)
    (items : List Image) (resp : Response)
    (hf : listfn opt = (items, some resp, none)) (hn : resp.hasNext = true)
    (hp : ∀ d ∈ items, svc.imageToVM vm d = .ok (proj d)) :
    svc.listLoop vm listfn (fuel + 1) opt images calls =
      svc.listLoop vm listfn fuel { opt with Page := opt.Page + 1 } (images ++ items.map proj)
        (calls ++ [Call.listfn opt]) := by
  simp [imageSvc.listLoop, hf, appendPage_ok svc vm proj items images hp, hn]

/-- The outer loop over `m` consecutive pages, from page `p0`, each fetched,
projected, and followed by another page. -/
theorem listLoop_prefix (svc : imageSvc) (vm : Otto) (listfn : listfunc) (pp : Nat)
    (items : Nat → List Image) (proj : Image → Value) :
    ∀ (m p0 : Nat) (images : List Value) (calls : List Call) (fuel : Nat),
      (∀ k ∈ List.range' p0 m, ∃ resp, listfn ⟨k, pp⟩ = (items k, some resp, none) ∧
        resp.hasNext = true) →
      (∀ k ∈ List.range' p0 m, ∀ d ∈ items k, svc.imageToVM vm d = .ok (proj d)) →
      svc.listLoop vm listfn (fuel + m) ⟨p0, pp⟩ images calls =
        svc.listLoop vm listfn fuel ⟨p0 + m, pp⟩
          (images ++ (List.range' p0 m).flatMap (fun k => (items k).map proj))
          (calls ++ (List.range' p0 m).map (fun k => Call.listfn ⟨k, pp⟩)) := by
  intro m
  induction m with
  | zero => intro p0 images calls fuel _ _; simp
  | succ m ih =>
    intro p0 images calls fuel hf hp
    have hmem : p0 ∈ List.range' p0 (m + 1) := by simp [List.range'_succ]
    have hsub : ∀ k ∈ List.range' (p0 + 1) m, k ∈ List.range' p0 (m + 1) := by
      intro k hk
      simp [List.range'_succ, hk]
    obtain ⟨resp, hresp, hnext⟩ := hf p0 hmem
    have hstep := listLoop_step svc vm listfn proj (fuel + m) ⟨p0, pp⟩ images calls
      (items p0) resp hresp hnext (hp p0 hmem)
    have hrec := ih (p0 + 1) (images ++ (items p0).map proj)
      (calls ++ [Call.listfn ⟨p0, pp⟩]) fuel
      (fun k hk => hf k (hsub k hk)) (fun k hk => hp k (hsub k hk))
    rw [show fuel + (m + 1) = fuel + m + 1 from rfl, hstep]
    simp only [] at hrec ⊢
    rw [hrec]
    simp [List.range'_succ, List.append_assoc, Nat.add_assoc, Nat.add_comm 1 m]

/-- The last turn of the outer loop: the page is fetched and projected and the
response announces no further page. -/
theorem listLoop_last (svc : imageSvc) (vm : Otto) (listfn : listfunc) (proj : Image → Value)
    (fuel : Nat) (opt : ListOptions) (images : List Value) (calls : List Call)
    (items : List Image) (resp : Response)
    (hf : listfn opt = (items, some resp, none)) (hn : resp.hasNext = false)
    (hp : ∀ d ∈ items, svc.imageToVM vm d = .ok (proj d)) :
    svc.listLoop vm listfn (fuel + 1) opt images calls =
      some ⟨calls ++ [Call.listfn opt], endOfList vm (images ++ items.map proj)⟩ := by
  simp [imageSvc.listLoop, hf, appendPage_ok svc vm proj items images hp, hn]

/-- A turn of the outer loop whose fetch fails throws the remote error. -/
theorem listLoop_fail (svc : imageSvc) (vm : Otto) (listfn : listfunc)
    (fuel : Nat) (opt : ListOptions) (images : List Value) (calls : List Call) (e : String)
    (hf : (listfn opt).2.2 = some e) :
    svc.listLoop vm listfn (fuel + 1) opt images calls =
      some ⟨calls ++ [Call.listfn opt], .thrown e⟩ := by
  simp [imageSvc.listLoop, hf]

/-- The whole run of `listCommon` over `P` pages of which the last one, and
only it, announces no further page. -/
theorem listCommon_pages (svc : imageSvc) (all : FunctionCall) (listfn : listfunc)
    (P : Nat) (hP : 1 ≤ P) (items : Nat → List Image) (proj : Image → Value)
    (hfetch : ∀ k, 1 ≤ k → k ≤ P → ∃ resp,
      listfn ⟨k, 200⟩ = (items k, some resp, none) ∧ resp.hasNext = decide (k < P))
    (hproj : ∀ k, 1 ≤ k → k ≤ P → ∀ d ∈ items k, svc.imageToVM all.Otto d = .ok (proj d))
    (fuel : Nat) (hfuel : P ≤ fuel) :
    svc.listCommon all listfn fuel =
      some ⟨(List.range' 1 P).map (fun k => Call.listfn ⟨k, 200⟩),
        endOfList all.Otto (((List.range' 1 P).flatMap items).map proj)⟩ := by
  obtain ⟨m, rfl⟩ : ∃ m, P = m + 1 := ⟨P - 1, by omega⟩
  obtain ⟨f, rfl⟩ : ∃ f, fuel = f + 1 + m := ⟨fuel - (m + 1), by omega⟩
  have hpre := listLoop_prefix svc all.Otto listfn 200 items proj m 1 [] [] (f + 1)
    (by
      intro k hk
      rw [List.mem_range'_1] at hk
      obtain ⟨resp, h1, h2⟩ := hfetch k hk.1 (by omega)
      exact ⟨resp, h1, by rw [h2]; simp; omega⟩)
    (by
      intro k hk
      rw [List.mem_range'_1] at hk
      exact hproj k hk.1 (by omega))
  obtain ⟨resp, h1, h2⟩ := hfetch (1 + m) (by omega) (by omega)
  have hlast := listLoop_last svc all.Otto listfn proj f ⟨1 + m, 200⟩
    ([] ++ (List.range' 1 m).flatMap (fun k => (items k).map proj))
    ([] ++ (List.range' 1 m).map (fun k => Call.listfn ⟨k, 200⟩))
    (items (1 + m)) resp h1 (by rw [h2]; simp; omega) (hproj (1 + m) (by omega) (by omega))
  unfold imageSvc.listCommon
  simp only []
  rw [hpre, hlast]
  simp [List.range'_concat, List.map_flatMap, List.flatMap_append]

/-- The loop stops exactly when the response has no link metadata or its
links report the last page. -/
theorem hasNext_eq_false_iff (resp : Response) :
    resp.hasNext = false ↔
      (resp.Links = none ∨ ∃ l, resp.Links = some l ∧ l.IsLastPage = true) := by
  obtain ⟨links⟩ := resp
  cases links with
  | none => simp [Response.hasNext]
  | some l => simp [Response.hasNext]

/-- The sample interpreter projects every record to `sampleProj`. -/
theorem sampleProj_ok (svc : imageSvc) (g : Image) :
    svc.imageToVM sampleVM g = .ok (sampleProj g) :=
  imageToVM_eq svc sampleVM g rfl rfl rfl rfl rfl rfl rfl rfl rfl

/-- C1: for each of the four listing operations and every `P ≥ 1`: when the
remote listing function succeeds on pages 1..P, announces a further page on
pages 1..P-1 and none on page P, and every record projects, the operation
returns the array of the projections of the records of pages 1..P, in page
order and in the order of each page; its length is the total number of
records. -/
theorem list_flattens_pages (svc : imageSvc) (all : FunctionCall) (op : ListOp)
    (P : Nat) (hP : 1 ≤ P) (items : Nat → List Image) (proj : Image → Value)
    (hfetch : ∀ k, 1 ≤ k → k ≤ P → ∃ resp,
      op.remote svc.svc ⟨k, 200⟩ = (items k, some resp, none) ∧
      resp.hasNext = decide (k < P))
    (hproj : ∀ k, 1 ≤ k → k ≤ P → ∀ d ∈ items k, svc.imageToVM all.Otto d = .ok (proj d))
    (harr : ∀ vs, all.Otto.ToValue (.values vs) = .ok (.array vs))
    (fuel : Nat) (hfuel : P ≤ fuel) :
    ∃ run, op.method svc all fuel = some run ∧
      run.outcome = .returned (.array (((List.range' 1 P).flatMap items).map proj)) ∧
      (((List.range' 1 P).flatMap items).map proj).length =
        ((List.range' 1 P).map (fun k => (items k).length)).sum := by
  have hrun := listCommon_pages svc all (op.remote svc.svc) P hP items proj hfetch hproj
    fuel hfuel
  have hm : op.method svc all fuel = svc.listCommon all (op.remote svc.svc) fuel := by
    cases op <;> rfl
  refine ⟨_, hm.trans hrun, ?_, ?_⟩
  · simp [endOfList, harr]
  · simp [List.length_flatMap, Function.comp_def]

/-- Witness of C1: `list` on the sample remote, three pages holding 2, 1 and 0
records. -/
theorem list_flattens_pages_witness :
    (1 ≤ 3) ∧
    (∀ k, 1 ≤ k → k ≤ 3 → ∃ resp,
      ListOp.list.remote sampleSvc.svc ⟨k, 200⟩ =
        ((sampleClient.List ⟨k, 200⟩).1, some resp, none) ∧
      resp.hasNext = decide (k < 3)) ∧
    (∀ k, 1 ≤ k → k ≤ 3 → ∀ d ∈ (sampleClient.List ⟨k, 200⟩).1,
      sampleSvc.imageToVM sampleVM d = .ok (sampleProj d)) ∧
    (∀ vs, sampleVM.ToValue (.values vs) = .ok (.array vs)) ∧
    ∃ run, ListOp.list.method sampleSvc ⟨sampleVM, []⟩ 3 = some run ∧
      run.outcome = .returned (.array (((List.range' 1 3).flatMap
        (fun k => (sampleClient.List ⟨k, 200⟩).1)).map sampleProj)) ∧
      (((List.range' 1 3).flatMap
        (fun k => (sampleClient.List ⟨k, 200⟩).1)).map sampleProj).length =
        ((List.range' 1 3).map (fun k => ((sampleClient.List ⟨k, 200⟩).1).length)).sum :=
  have hfetch : ∀ k, 1 ≤ k → k ≤ 3 → ∃ resp,
      ListOp.list.remote sampleSvc.svc ⟨k, 200⟩ =
        ((sampleClient.List ⟨k, 200⟩).1, some resp, none) ∧
      resp.hasNext = decide (k < 3) := by
    intro k h1 h3
    interval_cases k
    · exact ⟨_, rfl, rfl⟩
    · exact ⟨_, rfl, rfl⟩
    · exact ⟨_, rfl, rfl⟩
  ⟨by decide, hfetch, fun _ _ _ d _ => sampleProj_ok sampleSvc d, fun _ => rfl,
   list_flattens_pages sampleSvc ⟨sampleVM, []⟩ ListOp.list 3 (by decide)
     (fun k => (sampleClient.List ⟨k, 200⟩).1) sampleProj hfetch
     (fun _ _ _ d _ => sampleProj_ok sampleSvc d) (fun _ => rfl) 3 (Nat.le_refl 3)⟩

/-- C5: when the remote listing function succeeds on pages 1..k-1, each
announcing a further page, and fails on page k with error `e`, `listCommon`
throws a script exception carrying `e`, returns no collection, and fetches
pages 1..k and no other. -/
theorem listCommon_fetch_error (svc : imageSvc) (all : FunctionCall) (listfn : listfunc)
    (k : Nat) (hk : 1 ≤ k) (items : Nat → List Image) (proj : Image → Value)
    (hfetch : ∀ j, 1 ≤ j → j < k → ∃ resp,
      listfn ⟨j, 200⟩ = (items j, some resp, none) ∧ resp.hasNext = true)
    (hproj : ∀ j, 1 ≤ j → j < k → ∀ d ∈ items j, svc.imageToVM all.Otto d = .ok (proj d))
    (e : String) (hfail : (listfn ⟨k, 200⟩).2.2 = some e)
    (fuel : Nat) (hfuel : k ≤ fuel) :
    svc.listCommon all listfn fuel =
      some ⟨(List.range' 1 k).map (fun j => Call.listfn ⟨j, 200⟩), .thrown e⟩ := by
  obtain ⟨m, rfl⟩ : ∃ m, k = m + 1 := ⟨k - 1, by omega⟩
  obtain ⟨f, rfl⟩ : ∃ f, fuel = f + 1 + m := ⟨fuel - (m + 1), by omega⟩
  have hpre := listLoop_prefix svc all.Otto listfn 200 items proj m 1 [] [] (f + 1)
    (by
      intro j hj
      rw [List.mem_range'_1] at hj
      exact hfetch j hj.1 (by omega))
    (by
      intro j hj
      rw [List.mem_range'_1] at hj
      exact hproj j hj.1 (by omega))
  have hlast := listLoop_fail svc all.Otto listfn f ⟨1 + m, 200⟩
    ([] ++ (List.range' 1 m).flatMap (fun j => (items j).map proj))
    ([] ++ (List.range' 1 m).map (fun j => Call.listfn ⟨j, 200⟩)) e
    (by rw [Nat.add_comm 1 m]; exact hfail)
  unfold imageSvc.listCommon
  simp only []
  rw [hpre, hlast]
  simp [List.range'_concat]

/-- Witness of C5: `list_user` on the sample remote, whose second page fails. -/
theorem listCommon_fetch_error_witness :
    (1 ≤ 2) ∧
    (∀ j, 1 ≤ j → j < 2 → ∃ resp,
      sampleClient.ListUser ⟨j, 200⟩ = ((sampleClient.ListUser ⟨j, 200⟩).1, some resp, none) ∧
      resp.hasNext = true) ∧
    (∀ j, 1 ≤ j → j < 2 → ∀ d ∈ (sampleClient.ListUser ⟨j, 200⟩).1,
      sampleSvc.imageToVM sampleVM d = .ok (sampleProj d)) ∧
    (sampleClient.ListUser ⟨2, 200⟩).2.2 = some "server error" ∧
    sampleSvc.listCommon ⟨sampleVM, []⟩ sampleClient.ListUser 2 =
      some ⟨(List.range' 1 2).map (fun j => Call.listfn ⟨j, 200⟩), .thrown "server error"⟩ :=
  have hfetch : ∀ j, 1 ≤ j → j < 2 → ∃ resp,
      sampleClient.ListUser ⟨j, 200⟩ = ((sampleClient.ListUser ⟨j, 200⟩).1, some resp, none) ∧
      resp.hasNext = true := by
    intro j h1 h2
    interval_cases j
    exact ⟨_, rfl, rfl⟩
  ⟨by decide, hfetch, fun _ _ _ d _ => sampleProj_ok sampleSvc d, rfl,
   listCommon_fetch_error sampleSvc ⟨sampleVM, []⟩ sampleClient.ListUser 2 (by decide)
     (fun j => (sampleClient.ListUser ⟨j, 200⟩).1) sampleProj hfetch
     (fun _ _ _ d _ => sampleProj_ok sampleSvc d) "server error" rfl 2 (Nat.le_refl 2)⟩

/-- C10: when page `P` is the first whose response has no link metadata or
reports the last page, and the fetches and projections of pages 1..P succeed,
`listCommon` ends after exactly `P` fetches, the k-th issued with `Page = k`
and `PerPage = 200`. -/
theorem listCommon_fetch_sequence (svc : imageSvc) (all : FunctionCall) (listfn : listfunc)
    (P : Nat) (hP : 1 ≤ P) (items : Nat → List Image) (proj : Image → Value)
    (hfetch : ∀ k, 1 ≤ k → k ≤ P → ∃ resp,
      listfn ⟨k, 200⟩ = (items k, some resp, none) ∧
      ((resp.Links = none ∨ ∃ l, resp.Links = some l ∧ l.IsLastPage = true) ↔ k = P))
    (hproj : ∀ k, 1 ≤ k → k ≤ P → ∀ d ∈ items k, svc.imageToVM all.Otto d = .ok (proj d))
    (fuel : Nat) (hfuel : P ≤ fuel) :
    ∃ run, svc.listCommon all listfn fuel = some run ∧
      run.calls = (List.range' 1 P).map (fun k => Call.listfn ⟨k, 200⟩) ∧
      run.calls.length = P := by
  have hfetch2 : ∀ k, 1 ≤ k → k ≤ P → ∃ resp,
      listfn ⟨k, 200⟩ = (items k, some resp, none) ∧ resp.hasNext = decide (k < P) := by
    intro k h1 h2
    obtain ⟨resp, hr, hl⟩ := hfetch k h1 h2
    refine ⟨resp, hr, ?_⟩
    rw [← hasNext_eq_false_iff] at hl
    by_cases hkP : k = P
    · rw [hl.mpr hkP]
      simp [hkP]
    · have hlt : k < P := by omega
      have hne : resp.hasNext ≠ false := fun h => hkP (hl.mp h)
      simp [hlt, hne]
  refine ⟨_, listCommon_pages svc all listfn P hP items proj hfetch2 hproj fuel hfuel, rfl, ?_⟩
  simp

/-- Witness of C10: a first response without link metadata
(`list_distribution` on the sample remote) gives exactly one fetch. -/
theorem listCommon_fetch_sequence_witness :
    (1 ≤ 1) ∧
    (∀ k, 1 ≤ k → k ≤ 1 → ∃ resp,
      sampleClient.ListDistribution ⟨k, 200⟩ =
        ((sampleClient.ListDistribution ⟨k, 200⟩).1, some resp, none) ∧
      ((resp.Links = none ∨ ∃ l, resp.Links = some l ∧ l.IsLastPage = true) ↔ k = 1)) ∧
    (∀ k, 1 ≤ k → k ≤ 1 → ∀ d ∈ (sampleClient.ListDistribution ⟨k, 200⟩).1,
      sampleSvc.imageToVM sampleVM d = .ok (sampleProj d)) ∧
    ∃ run, sampleSvc.listCommon ⟨sampleVM, []⟩ sampleClient.ListDistribution 1 = some run ∧
      run.calls = (List.range' 1 1).map (fun k => Call.listfn ⟨k, 200⟩) ∧
      run.calls.length = 1 :=
  have hfetch : ∀ k, 1 ≤ k → k ≤ 1 → ∃ resp,
      sampleClient.ListDistribution ⟨k, 200⟩ =
        ((sampleClient.ListDistribution ⟨k, 200⟩).1, some resp, none) ∧
      ((resp.Links = none ∨ ∃ l, resp.Links = some l ∧ l.IsLastPage = true) ↔ k = 1) := by
    intro k h1 h2
    have hk : k = 1 := by omega
    subst hk
    exact ⟨⟨none⟩, rfl, by simp⟩
  ⟨by decide, hfetch, fun _ _ _ d _ => sampleProj_ok sampleSvc d,
   listCommon_fetch_sequence sampleSvc ⟨sampleVM, []⟩ sampleClient.ListDistribution 1
     (by decide) (fun k => (sampleClient.ListDistribution ⟨k, 200⟩).1) sampleProj hfetch
     (fun _ _ _ d _ => sampleProj_ok sampleSvc d) 1 (Nat.le_refl 1)⟩

end Godotto
